import Mathlib

/-! The Max-Log-MAP forward and backward recursions of turbofec, `turbo_sse.h`.

A shallow embedding of `src/src/turbo_sse.h`.

* An `int16_t[8]` buffer (`__data128i.m128i_i16`, `__m128i` seen as eight words) is a
  function `Fin 8 → Int` whose lanes lie in `[-32768, 32767]`.
* The same buffer seen through an `int8_t*` cast is a function `Fin 16 → Int` of signed
  bytes, byte `2i` the low and byte `2i+1` the high byte of lane `i` (x86 is little-endian).
* C evaluates `a[i] + b[i]` in `int` and the store into an `int16_t` keeps the low 16 bits:
  that store is `wrap16`.
* The functions write through `dest` pointers; here they return the written buffer.
  Every call in the source that aliases `dest` with an argument reads lane `i` of the
  argument before it writes lane `i` of `dest`, so the lane-wise definitions are exact.
-/

namespace TurboFec

/-- Eight `int16_t` lanes. -/
abbrev V16 := Fin 8 → Int

/-- Sixteen `int8_t` lanes. -/
abbrev V8 := Fin 16 → Int

/-- The value kept by a store of an `int` into an `int16_t`. -/
def wrap16 (v : Int) : Int := (v + 32768) % 65536 - 32768

/-- The value kept by a store of an `int` into an `int8_t`. -/
def wrap8 (v : Int) : Int := (v + 128) % 256 - 128

/-- The range of `int8_t`. -/
abbrev I8 (v : Int) : Prop := -128 ≤ v ∧ v ≤ 127

/-- The range of `int16_t`. -/
abbrev I16 (v : Int) : Prop := -32768 ≤ v ∧ v ≤ 32767

/-- Every lane of the buffer is an `int16_t`. -/
abbrev V16ok (a : V16) : Prop := ∀ i : Fin 8, I16 (a i)

/-- The `(int8_t*)` view of an `int16_t[8]` buffer. -/
def toBytes (a : V16) : V8 := fun k =>
  if k.val % 2 = 0 then wrap8 (a ⟨k.val / 2, by omega⟩)
  else wrap8 (a ⟨k.val / 2, by omega⟩ / 256)

/-- The `int16_t[8]` buffer whose `(int8_t*)` view is `b`. -/
def ofBytes (b : V8) : V16 := fun i =>
  wrap16 (b ⟨2 * i.val, by omega⟩ % 256 + 256 * (b ⟨2 * i.val + 1, by omega⟩ % 256))

/-! ## Trellis tables (the macros of lines 31-72, as the argument lists they expand to) -/

/-- `ci_set_epi16(dest, _W7, ..., _W0)`: `dest[k] = _Wk`. -/
def ci_set_epi16 (w7 w6 w5 w4 w3 w2 w1 w0 : Int) : V16 :=
  ![w0, w1, w2, w3, w4, w5, w6, w7]

/-- `ci_set_epi8(dest, e15, ..., e0)`: `dest[k] = ek`. -/
def ci_set_epi8 (e15 e14 e13 e12 e11 e10 e9 e8 e7 e6 e5 e4 e3 e2 e1 e0 : Int) : V8 :=
  ![e0, e1, e2, e3, e4, e5, e6, e7, e8, e9, e10, e11, e12, e13, e14, e15]

/-- `ci_set_epi16(m4, LTE_SYSTEM_FW_SHUFFLE)` with
`#define LTE_SYSTEM_FW_SHUFFLE -1, 1, -1, 1, 1, -1, 1, -1`. -/
def LTE_SYSTEM_FW_SHUFFLE : V16 := ci_set_epi16 (-1) 1 (-1) 1 1 (-1) 1 (-1)

/-- `ci_set_epi16(m5, LTE_PARITY_FW_SHUFFLE)` with
`#define LTE_PARITY_FW_SHUFFLE -1, -1, 1, 1, 1, 1, -1, -1`. -/
def LTE_PARITY_FW_SHUFFLE : V16 := ci_set_epi16 (-1) (-1) 1 1 1 1 (-1) (-1)

/-- `#define LTE_PARITY_BW_SHUFFLE LTE_PARITY_FW_SHUFFLE`. -/
def LTE_PARITY_BW_SHUFFLE : V16 := LTE_PARITY_FW_SHUFFLE

/-- `ci_set_epi8(m10, FW_SHUFFLE_MASK0)` with
`#define FW_SHUFFLE_MASK0 13, 12, 9, 8, 5, 4, 1, 0, 13, 12, 9, 8, 5, 4, 1, 0`. -/
def FW_SHUFFLE_MASK0 : V8 := ci_set_epi8 13 12 9 8 5 4 1 0 13 12 9 8 5 4 1 0

/-- `ci_set_epi8(m11, FW_SHUFFLE_MASK1)` with
`#define FW_SHUFFLE_MASK1 15, 14, 11, 10, 7, 6, 3, 2, 15, 14, 11, 10, 7, 6, 3, 2`. -/
def FW_SHUFFLE_MASK1 : V8 := ci_set_epi8 15 14 11 10 7 6 3 2 15 14 11 10 7 6 3 2

/-- `ci_set_epi8(m9, LV_BW_SHUFFLE_MASK0)` with
`#define LV_BW_SHUFFLE_MASK0 7, 6, 15, 14, 13, 12, 5, 4, 3, 2, 11, 10, 9, 8, 1, 0`. -/
def LV_BW_SHUFFLE_MASK0 : V8 := ci_set_epi8 7 6 15 14 13 12 5 4 3 2 11 10 9 8 1 0

/-- `ci_set_epi8(m10, LV_BW_SHUFFLE_MASK1)` with
`#define LV_BW_SHUFFLE_MASK1 15, 14, 7, 6, 5, 4, 13, 12, 11, 10, 3, 2, 1, 0, 9, 8`. -/
def LV_BW_SHUFFLE_MASK1 : V8 := ci_set_epi8 15 14 7 6 5 4 13 12 11 10 3 2 1 0 9 8

/-! ## The scalar emulation (`#else` branch, lines 222-603) -/

/-- `ci_set1_epi16`: `dest[i] = src`. -/
def ci_set1_epi16 (src : Int) : V16 := fun _ => src

/-- `ci_setzero_si128`: `dest[i] = 0`. -/
def ci_setzero_si128 : V16 := fun _ => 0

/-- `ci_sign_epi16`: `-a[i]`, `0` or `a[i]` as `b[i]` is negative, zero or positive. -/
def ci_sign_epi16 (a b : V16) : V16 := fun i =>
  if b i < 0 then wrap16 (-(a i))
  else if b i = 0 then 0
  else a i

/-- `ci_srai_epi16`: `a[i] ? 0xFFFF : 0` when `imm8 > 15`, else `a[i] >> imm8`. -/
def ci_srai_epi16 (a : V16) (imm8 : Nat) : V16 := fun i =>
  if imm8 > 15 then (if a i ≠ 0 then wrap16 65535 else 0)
  else wrap16 (a i >>> imm8)

/-- `ci_adds_epi16`: `dest[i] = a[i] + b[i]`. -/
def ci_adds_epi16 (a b : V16) : V16 := fun i => wrap16 (a i + b i)

/-- `ci_subs_epi16`: `dest[i] = a[i] - b[i]`. -/
def ci_subs_epi16 (a b : V16) : V16 := fun i => wrap16 (a i - b i)

/-- `ci_unpacklo_epi16`: interleave the low four lanes of `a` and `b`. -/
def ci_unpacklo_epi16 (a b : V16) : V16 :=
  ![a 0, b 0, a 1, b 1, a 2, b 2, a 3, b 3]

/-- `ci_unpackhi_epi16`: interleave the high four lanes of `a` and `b`. -/
def ci_unpackhi_epi16 (a b : V16) : V16 :=
  ![a 4, b 4, a 5, b 5, a 6, b 6, a 7, b 7]

/-- `ci_store_si128`: `dest[i] = a[i]`. -/
def ci_store_si128 (a : V16) : V16 := fun i => a i

/-- `ci_load_si128`: `dest[i] = src[i]`. -/
def ci_load_si128 (src : V16) : V16 := fun i => src i

/-- `ci_shuffle_epi8`: `dest[i] = (b[i] < 0) ? 0 : a[b[i] % 16]`. -/
def ci_shuffle_epi8 (a b : V8) : V8 := fun i =>
  if b i < 0 then 0 else a ⟨(b i).toNat % 16, Nat.mod_lt _ (by decide)⟩

/-- `ci_max_epi16`: `dest[i] = a[i]` if `a[i] > b[i]`, else `b[i]`. -/
def ci_max_epi16 (a b : V16) : V16 := fun i =>
  if a i > b i then a i else b i

/-- `ci_broadcastw_epi16`: `dest[i] = a[0]`. -/
def ci_broadcastw_epi16 (a : V16) : V16 := fun _ => a 0

/-- `ci_sub_epi16`: `dest[i] = a[i] - b[i]`. -/
def ci_sub_epi16 (a b : V16) : V16 := fun i => wrap16 (a i - b i)

/-- The loop of `ci_minpos_epu16`: `if (a[i] < min) { min = a[i]; index = i; }`,
a comparison of `int16_t a[i]` with `int min`. -/
def minpos_scan (a : V16) : List (Fin 8) → Int × Int → Int × Int
  | [], s => s
  | i :: rest, s =>
    if a i < s.1 then minpos_scan a rest (a i, (i.val : Int))
    else minpos_scan a rest s

/-- `ci_minpos_epu16`: `min` in lane 0, `index` in lane 1, zero elsewhere. -/
def ci_minpos_epu16 (a : V16) : V16 :=
  let r := minpos_scan a (List.finRange 8) (a 0, 0)
  fun i => if i = 0 then wrap16 r.1 else if i = 1 then wrap16 r.2 else 0

/-- `ci_shuffle_epi32` through the `(int32_t*)` casts of `MAXPOS_CI`: 32-bit group `k`
of `dst` (lanes `2k`, `2k+1`) is 32-bit group `a, b, c, d` of `src` for `k = 0, 1, 2, 3`. -/
def ci_shuffle_epi32 (src : V16) (d c b a : Fin 4) : V16 :=
  ![src ⟨2 * a.val, by omega⟩, src ⟨2 * a.val + 1, by omega⟩,
    src ⟨2 * b.val, by omega⟩, src ⟨2 * b.val + 1, by omega⟩,
    src ⟨2 * c.val, by omega⟩, src ⟨2 * c.val + 1, by omega⟩,
    src ⟨2 * d.val, by omega⟩, src ⟨2 * d.val + 1, by omega⟩]

/-- `ci_shufflelo_epi16`: lanes 0..3 are `src[a], src[b], src[c], src[d]`, lanes 4..7 copied. -/
def ci_shufflelo_epi16 (src : V16) (d c b a : Fin 4) : V16 :=
  ![src ⟨a.val, by omega⟩, src ⟨b.val, by omega⟩, src ⟨c.val, by omega⟩,
    src ⟨d.val, by omega⟩, src 4, src 5, src 6, src 7]

/-- `ci_shufflehi_epi16`: lanes 0..3 copied, lanes 4..7 are `src[a+4], ..., src[d+4]`. -/
def ci_shufflehi_epi16 (src : V16) (d c b a : Fin 4) : V16 :=
  ![src 0, src 1, src 2, src 3, src ⟨a.val + 4, by omega⟩, src ⟨b.val + 4, by omega⟩,
    src ⟨c.val + 4, by omega⟩, src ⟨d.val + 4, by omega⟩]

/-- `MAXPOS_CI(M0, M1, M2)`: the final `M2`. -/
def MAXPOS_CI (M0 : V16) : V16 :=
  let M1 := ci_shuffle_epi32 M0 0 0 3 2
  let M2 := ci_max_epi16 M0 M1
  let M1 := ci_shufflelo_epi16 M2 0 0 3 2
  let M2 := ci_max_epi16 M2 M1
  let M1 := ci_shufflelo_epi16 M2 0 0 0 1
  ci_max_epi16 M2 M1

/-- What `gen_fw_metrics` leaves behind: the buffers `bm` and `sums_c` and the returned
`int16_t`. -/
structure FwOut where
  bm : V16
  sums_c : V16
  ret : Int

/-- What `gen_bw_metrics` leaves behind: the overwritten buffer `bw` and the returned
`int16_t`. -/
structure BwOut where
  bw : V16
  ret : Int

/-- The vector `m6` of `gen_fw_metrics` after line 297: the plus-hypothesis branch metrics. -/
def fw_m6 (x z le : Int) : V16 :=
  let m0 := ci_set1_epi16 x
  let m1 := ci_set1_epi16 z
  let m2 := ci_set1_epi16 le
  let m4 := LTE_SYSTEM_FW_SHUFFLE
  let m5 := LTE_PARITY_FW_SHUFFLE
  let m6 := ci_sign_epi16 m0 m4
  let m7 := ci_sign_epi16 m1 m5
  let m8 := ci_sign_epi16 m2 m4
  let m8 := ci_srai_epi16 m8 1
  let m6 := ci_adds_epi16 m6 m7
  ci_adds_epi16 m6 m8

/-- The vector `m0` of `gen_fw_metrics` after line 314: the metrics before normalisation. -/
def fw_m0 (x z le : Int) (sums_p : V16) : V16 :=
  let m3 := ci_setzero_si128
  let m6 := fw_m6 x z le
  let m7 := ci_subs_epi16 m3 m6
  let m9 := ci_load_si128 sums_p
  let m10 := FW_SHUFFLE_MASK0
  let m11 := FW_SHUFFLE_MASK1
  let m12 := ofBytes (ci_shuffle_epi8 (toBytes m9) m10)
  let m13 := ofBytes (ci_shuffle_epi8 (toBytes m9) m11)
  let m12 := ci_adds_epi16 m12 m6
  let m13 := ci_adds_epi16 m13 m7
  ci_max_epi16 m12 m13

/-- The scalar `gen_fw_metrics(bm, x, z, sums_p, sums_c, le)` (lines 277-325). The return
statement reads an `int32_t` at `m1` and converts it to `int16_t`: lane 0 of `m1`. -/
def gen_fw_metrics (x z : Int) (sums_p : V16) (le : Int) : FwOut :=
  let m3 := ci_setzero_si128
  let m6 := fw_m6 x z le
  let m7 := ci_subs_epi16 m3 m6
  let m8 := ci_unpacklo_epi16 m6 m7
  let bm := ci_store_si128 m8
  let m0 := fw_m0 x z le sums_p
  let m1 := ci_broadcastw_epi16 m0
  let m0 := ci_subs_epi16 m0 m1
  let sums_c := ci_store_si128 m0
  { bm := bm, sums_c := sums_c, ret := m1 0 }

/-- The vector `m11` of `gen_bw_metrics` after line 361: the path metrics gathered through
`LV_BW_SHUFFLE_MASK0`. -/
def bw_m11 (z : Int) (fw bw : V16) : V16 :=
  let m0 := ci_set1_epi16 z
  let m1 := LTE_PARITY_BW_SHUFFLE
  let m13 := ci_sign_epi16 m0 m1
  let m0 := ci_load_si128 bw
  let m6 := ci_load_si128 fw
  let m9 := LV_BW_SHUFFLE_MASK0
  let m9 := ofBytes (ci_shuffle_epi8 (toBytes m0) m9)
  let m11 := ci_adds_epi16 m6 m13
  ci_adds_epi16 m11 m9

/-- The vector `m12` of `gen_bw_metrics` after line 362: the path metrics gathered through
`LV_BW_SHUFFLE_MASK1`. -/
def bw_m12 (z : Int) (fw bw : V16) : V16 :=
  let m0 := ci_set1_epi16 z
  let m1 := LTE_PARITY_BW_SHUFFLE
  let m13 := ci_sign_epi16 m0 m1
  let m0 := ci_load_si128 bw
  let m6 := ci_load_si128 fw
  let m10 := LV_BW_SHUFFLE_MASK1
  let m10 := ofBytes (ci_shuffle_epi8 (toBytes m0) m10)
  let m12 := ci_subs_epi16 m6 m13
  ci_adds_epi16 m12 m10

/-- The scalar `gen_bw_metrics(bm, z, fw, bw, norm)` (lines 327-374). The return statement
reads an `int32_t` at `m13` and converts it to `int16_t`: lane 0 of `m13`. -/
def gen_bw_metrics (bm : V16) (z : Int) (fw bw : V16) (norm : Int) : BwOut :=
  let m0 := ci_load_si128 bw
  let m1 := ci_load_si128 bm
  let m3 := ci_set1_epi16 norm
  let m4 := ci_unpacklo_epi16 m0 m0
  let m5 := ci_unpackhi_epi16 m0 m0
  let m4 := ci_adds_epi16 m4 m1
  let m5 := ci_subs_epi16 m5 m1
  let m1 := ci_max_epi16 m4 m5
  let m1 := ci_subs_epi16 m1 m3
  let bw_new := ci_store_si128 m1
  let m11 := bw_m11 z fw bw
  let m12 := bw_m12 z fw bw
  let m14 := MAXPOS_CI m11
  let m15 := MAXPOS_CI m12
  let m13 := ci_sub_epi16 m15 m14
  { bw := bw_new, ret := m13 0 }


/-- The vector `m7` of `gen_fw_metrics` after line 298: the minus-hypothesis branch
metrics `ci_subs_epi16(m7, m3, m6)`. -/
def fw_m7 (x z le : Int) : V16 :=
  let m3 := ci_setzero_si128
  let m6 := fw_m6 x z le
  ci_subs_epi16 m3 m6

/-- The vector `m13` of `gen_bw_metrics` after line 336: the partial parity metric. -/
def bw_m13 (z : Int) : V16 :=
  let m0 := ci_set1_epi16 z
  let m1 := LTE_PARITY_BW_SHUFFLE
  ci_sign_epi16 m0 m1

/-- The `MAXPOS` construction of lines 89-95 carried out with the scalar primitives:
`M1 = set1(32767)`, `M2 = M1 - M0`, `M2 = minpos(M2)`, `M2 = M1 - M2`. The first component
is the vector written by `ci_minpos_epu16`, the second the final `M2`. -/
def MAXPOS_minpos_ci (M0 : V16) : V16 × V16 :=
  let M1 := ci_set1_epi16 32767
  let M2 := ci_sub_epi16 M1 M0
  let m := ci_minpos_epu16 M2
  (m, ci_sub_epi16 M1 m)

/-! ## The SSE path (`#ifdef HAVE_SSE3` branch, lines 74-218)

The `_mm_*` intrinsics are not code of this repository; each definition below is the lane
semantics of the intrinsic as documented in the Intel Intrinsics Guide. -/

namespace Sse

/-- Saturation of an exact sum to the `int16_t` range (`Saturate16` of the Intel
pseudo-code; also the clamp to `[-32768, 32767]` of the specification). -/
def sat16 (v : Int) : Int :=
  if v > 32767 then 32767 else if v < -32768 then -32768 else v

/-- `_mm_set1_epi16`: every lane is `a`. -/
def _mm_set1_epi16 (a : Int) : V16 := fun _ => a

/-- `_mm_setzero_si128`. -/
def _mm_setzero_si128 : V16 := fun _ => 0

/-- `_mm_set_epi16(e7, ..., e0)`: lane `k` is `ek`. -/
def _mm_set_epi16 (e7 e6 e5 e4 e3 e2 e1 e0 : Int) : V16 :=
  ![e0, e1, e2, e3, e4, e5, e6, e7]

/-- `_mm_set_epi8(e15, ..., e0)`: byte `k` is `ek`. -/
def _mm_set_epi8 (e15 e14 e13 e12 e11 e10 e9 e8 e7 e6 e5 e4 e3 e2 e1 e0 : Int) : V8 :=
  ![e0, e1, e2, e3, e4, e5, e6, e7, e8, e9, e10, e11, e12, e13, e14, e15]

/-- `_mm_sign_epi16`: the 16-bit negation of `a[i]`, zero, or `a[i]`. -/
def _mm_sign_epi16 (a b : V16) : V16 := fun i =>
  if b i < 0 then wrap16 (-(a i))
  else if b i = 0 then 0
  else a i

/-- `_mm_srai_epi16`: shift in sign bits; a count above 15 leaves only sign bits. -/
def _mm_srai_epi16 (a : V16) (imm8 : Nat) : V16 := fun i =>
  if imm8 > 15 then (if a i < 0 then -1 else 0)
  else a i >>> imm8

/-- `_mm_adds_epi16`: `Saturate16(a[i] + b[i])`. -/
def _mm_adds_epi16 (a b : V16) : V16 := fun i => sat16 (a i + b i)

/-- `_mm_subs_epi16`: `Saturate16(a[i] - b[i])`. -/
def _mm_subs_epi16 (a b : V16) : V16 := fun i => sat16 (a i - b i)

/-- `_mm_sub_epi16`: the low 16 bits of `a[i] - b[i]`. -/
def _mm_sub_epi16 (a b : V16) : V16 := fun i => wrap16 (a i - b i)

/-- `_mm_unpacklo_epi16`: interleave the low four words. -/
def _mm_unpacklo_epi16 (a b : V16) : V16 :=
  ![a 0, b 0, a 1, b 1, a 2, b 2, a 3, b 3]

/-- `_mm_unpackhi_epi16`: interleave the high four words. -/
def _mm_unpackhi_epi16 (a b : V16) : V16 :=
  ![a 4, b 4, a 5, b 5, a 6, b 6, a 7, b 7]

/-- `_mm_unpacklo_epi32`: interleave the low two doublewords (word pairs). -/
def _mm_unpacklo_epi32 (a b : V16) : V16 :=
  ![a 0, a 1, b 0, b 1, a 2, a 3, b 2, b 3]

/-- `_mm_unpacklo_epi64`: the low quadword of `a`, then the low quadword of `b`. -/
def _mm_unpacklo_epi64 (a b : V16) : V16 :=
  ![a 0, a 1, a 2, a 3, b 0, b 1, b 2, b 3]

/-- `_mm_shuffle_epi8`: byte `i` is zero when bit 7 of `b[i]` is set, else `a[b[i] & 15]`. -/
def _mm_shuffle_epi8 (a b : V8) : V8 := fun i =>
  if b i < 0 then 0 else a ⟨(b i).toNat % 16, Nat.mod_lt _ (by decide)⟩

/-- `_mm_max_epi16`: the signed maximum of each pair of lanes. -/
def _mm_max_epi16 (a b : V16) : V16 := fun i => max (a i) (b i)

/-- `_mm_broadcastw_epi16`: every lane is the low word of `a`. -/
def _mm_broadcastw_epi16 (a : V16) : V16 := fun _ => a 0

/-- The scan of `_mm_minpos_epu16` over the lanes as unsigned 16-bit values. -/
def minpos_scan_u (a : V16) : List (Fin 8) → Int × Int → Int × Int
  | [], s => s
  | i :: rest, s =>
    if a i % 65536 < s.1 then minpos_scan_u a rest (a i % 65536, (i.val : Int))
    else minpos_scan_u a rest s

/-- `_mm_minpos_epu16`: the unsigned minimum in word 0, its index in word 1, zero above. -/
def _mm_minpos_epu16 (a : V16) : V16 :=
  let r := minpos_scan_u a (List.finRange 8) (a 0 % 65536, 0)
  fun i => if i = 0 then wrap16 r.1 else if i = 1 then r.2 else 0

/-- `_mm_shuffle_epi32(a, _MM_SHUFFLE(z, y, x, w))`: doublewords `w, x, y, z` of `a`. -/
def _mm_shuffle_epi32 (a : V16) (z y x w : Fin 4) : V16 :=
  ![a ⟨2 * w.val, by omega⟩, a ⟨2 * w.val + 1, by omega⟩,
    a ⟨2 * x.val, by omega⟩, a ⟨2 * x.val + 1, by omega⟩,
    a ⟨2 * y.val, by omega⟩, a ⟨2 * y.val + 1, by omega⟩,
    a ⟨2 * z.val, by omega⟩, a ⟨2 * z.val + 1, by omega⟩]

/-- `_mm_shufflelo_epi16(a, _MM_SHUFFLE(z, y, x, w))`: words `w, x, y, z` of the low
quadword, the high quadword copied. -/
def _mm_shufflelo_epi16 (a : V16) (z y x w : Fin 4) : V16 :=
  ![a ⟨w.val, by omega⟩, a ⟨x.val, by omega⟩, a ⟨y.val, by omega⟩, a ⟨z.val, by omega⟩,
    a 4, a 5, a 6, a 7]

/-- `MAXPOS(M0, M1, M2)` when `HAVE_SSE4_1` is defined (lines 89-95): the final `M2`. -/
def MAXPOS_sse41 (M0 : V16) : V16 :=
  let M1 := _mm_set1_epi16 32767
  let M2 := _mm_sub_epi16 M1 M0
  let M2 := _mm_minpos_epu16 M2
  _mm_sub_epi16 M1 M2

/-- `MAXPOS(M0, M1, M2)` when `HAVE_SSE4_1` is not defined (lines 97-105): the final `M2`. -/
def MAXPOS (M0 : V16) : V16 :=
  let M1 := _mm_shuffle_epi32 M0 0 0 3 2
  let M2 := _mm_max_epi16 M0 M1
  let M1 := _mm_shufflelo_epi16 M2 0 0 3 2
  let M2 := _mm_max_epi16 M2 M1
  let M1 := _mm_shufflelo_epi16 M2 0 0 0 1
  _mm_max_epi16 M2 M1

/-- The SSE `gen_fw_metrics` (lines 110-160); `have_avx2` selects the `#ifdef HAVE_AVX2`
branch. `_mm_cvtsi128_si32(m1)` converted to `int16_t` is lane 0 of `m1`. -/
def gen_fw_metrics (have_avx2 : Bool) (x z : Int) (sums_p : V16) (le : Int) : FwOut :=
  let m0 := _mm_set1_epi16 x
  let m1 := _mm_set1_epi16 z
  let m2 := _mm_set1_epi16 le
  let m3 := _mm_setzero_si128
  let m4 := _mm_set_epi16 (-1) 1 (-1) 1 1 (-1) 1 (-1)
  let m5 := _mm_set_epi16 (-1) (-1) 1 1 1 1 (-1) (-1)
  let m6 := _mm_sign_epi16 m0 m4
  let m7 := _mm_sign_epi16 m1 m5
  let m8 := _mm_sign_epi16 m2 m4
  let m8 := _mm_srai_epi16 m8 1
  let m6 := _mm_adds_epi16 m6 m7
  let m6 := _mm_adds_epi16 m6 m8
  let m7 := _mm_subs_epi16 m3 m6
  let m8 := _mm_unpacklo_epi16 m6 m7
  let bm := m8
  let m9 := sums_p
  let m10 := _mm_set_epi8 13 12 9 8 5 4 1 0 13 12 9 8 5 4 1 0
  let m11 := _mm_set_epi8 15 14 11 10 7 6 3 2 15 14 11 10 7 6 3 2
  let m12 := ofBytes (_mm_shuffle_epi8 (toBytes m9) m10)
  let m13 := ofBytes (_mm_shuffle_epi8 (toBytes m9) m11)
  let m12 := _mm_adds_epi16 m12 m6
  let m13 := _mm_adds_epi16 m13 m7
  let m0 := _mm_max_epi16 m12 m13
  let m1 :=
    if have_avx2 then _mm_broadcastw_epi16 m0
    else
      let m1 := _mm_unpacklo_epi16 m0 m0
      let m1 := _mm_unpacklo_epi32 m1 m1
      _mm_unpacklo_epi64 m1 m1
  let m0 := _mm_subs_epi16 m0 m1
  { bm := bm, sums_c := m0, ret := m1 0 }

/-- The SSE `gen_bw_metrics` (lines 164-218); `have_sse4_1` selects the branch taken when
`HAVE_SSE4_1` or `HAVE_SSE41` is defined. `_mm_cvtsi128_si32(m13)` converted to `int16_t`
is lane 0 of `m13`. -/
def gen_bw_metrics (have_sse4_1 : Bool) (bm : V16) (z : Int) (fw bw : V16) (norm : Int) :
    BwOut :=
  let m0 := _mm_set1_epi16 z
  let m1 := _mm_set_epi16 (-1) (-1) 1 1 1 1 (-1) (-1)
  let m13 := _mm_sign_epi16 m0 m1
  let m0 := bw
  let m1 := bm
  let m6 := fw
  let m3 := _mm_set1_epi16 norm
  let m4 := _mm_unpacklo_epi16 m0 m0
  let m5 := _mm_unpackhi_epi16 m0 m0
  let m4 := _mm_adds_epi16 m4 m1
  let m5 := _mm_subs_epi16 m5 m1
  let m1 := _mm_max_epi16 m4 m5
  let m1 := _mm_subs_epi16 m1 m3
  let bw_new := m1
  let m9 := _mm_set_epi8 7 6 15 14 13 12 5 4 3 2 11 10 9 8 1 0
  let m10 := _mm_set_epi8 15 14 7 6 5 4 13 12 11 10 3 2 1 0 9 8
  let m9 := ofBytes (_mm_shuffle_epi8 (toBytes m0) m9)
  let m10 := ofBytes (_mm_shuffle_epi8 (toBytes m0) m10)
  let m11 := _mm_adds_epi16 m6 m13
  let m12 := _mm_subs_epi16 m6 m13
  let m11 := _mm_adds_epi16 m11 m9
  let m12 := _mm_adds_epi16 m12 m10
  let m14 := if have_sse4_1 then MAXPOS_sse41 m11 else MAXPOS m11
  let m15 := if have_sse4_1 then MAXPOS_sse41 m12 else MAXPOS m12
  let m13 := _mm_sub_epi16 m15 m14
  { bw := bw_new, ret := m13 0 }

end Sse

/-! ## The quantities the specification speaks of -/

/-- Clamp to `[-32768, 32767]`: the saturation the specification asks of additions. -/
def sat16 (v : Int) : Int :=
  if v > 32767 then 32767 else if v < -32768 then -32768 else v

/-- The 16-bit sign application of the specification: `+a`, `-a` (as a 16-bit value) or `0`
as the pattern entry is positive, negative or zero. -/
def sign16 (a s : Int) : Int :=
  if s > 0 then a else if s < 0 then wrap16 (-a) else 0

/-- Arithmetic shift right by one bit: the floor of half the value. -/
def asr1 (a : Int) : Int := a / 2

/-- The systematic polarity `s = (-1, 1, -1, 1, 1, -1, 1, -1)`. -/
def sysPolarity : V16 := ![-1, 1, -1, 1, 1, -1, 1, -1]

/-- The parity polarity `q = p = (-1, -1, 1, 1, 1, 1, -1, -1)`. -/
def parPolarity : V16 := ![-1, -1, 1, 1, 1, 1, -1, -1]

/-- The plus-hypothesis branch metric
`g[j] = sign(x, s[j]) + sign(z, q[j]) + (sign(le, s[j]) >> 1)`, in exact integers. -/
def branchMetric (x z le : Int) : V16 := fun j =>
  sign16 x (sysPolarity j) + sign16 z (parPolarity j) + asr1 (sign16 le (sysPolarity j))

/-- The first predecessor lane `2 * (j mod 4)` of destination lane `j`. -/
def pred0 (j : Fin 8) : Fin 8 := ⟨2 * (j.val % 4), by omega⟩

/-- The second predecessor lane `2 * (j mod 4) + 1` of destination lane `j`. -/
def pred1 (j : Fin 8) : Fin 8 := ⟨2 * (j.val % 4) + 1, by omega⟩

/-- The add-compare-select value
`raw[j] = max(alpha_prev[2 (j mod 4)] + g[j], alpha_prev[2 (j mod 4) + 1] - g[j])`,
in exact integers. -/
def acsRaw (x z le : Int) (alpha_prev : V16) : V16 := fun j =>
  max (alpha_prev (pred0 j) + branchMetric x z le j)
      (alpha_prev (pred1 j) - branchMetric x z le j)

/-- No lane sum of the forward step leaves the `int16_t` range: the two candidate sums of
every lane and the difference taken by the normalisation. -/
abbrev FwInRange (x z le : Int) (alpha_prev : V16) : Prop :=
  ∀ j : Fin 8,
    I16 (alpha_prev (pred0 j) + branchMetric x z le j) ∧
    I16 (alpha_prev (pred1 j) - branchMetric x z le j) ∧
    I16 (acsRaw x z le alpha_prev j - acsRaw x z le alpha_prev 0)

/-- The lane `⌊s/2⌋` of the old `beta` that feeds lane `s` of the new one. -/
def succLo (s : Fin 8) : Fin 8 := ⟨s.val / 2, by omega⟩

/-- The lane `⌊s/2⌋ + 4` of the old `beta` that feeds lane `s` of the new one. -/
def succHi (s : Fin 8) : Fin 8 := ⟨s.val / 2 + 4, by omega⟩

/-- The backward update `max(beta[⌊s/2⌋] + bm[s], beta[⌊s/2⌋ + 4] - bm[s]) - norm`,
in exact integers. -/
def betaUpdate (bm beta : V16) (norm : Int) : V16 := fun s =>
  max (beta (succLo s) + bm s) (beta (succHi s) - bm s) - norm

/-- No lane sum of the backward update leaves the `int16_t` range. -/
abbrev BwInRange (bm beta : V16) (norm : Int) : Prop :=
  ∀ s : Fin 8,
    I16 (beta (succLo s) + bm s) ∧
    I16 (beta (succHi s) - bm s) ∧
    I16 (betaUpdate bm beta norm s)

/-- The gather `π0 = (0, 4, 5, 1, 2, 6, 7, 3)`. -/
def pi0 : Fin 8 → Fin 8 := ![0, 4, 5, 1, 2, 6, 7, 3]

/-- The gather `π1 = (4, 0, 1, 5, 6, 2, 3, 7)`. -/
def pi1 : Fin 8 → Fin 8 := ![4, 0, 1, 5, 6, 2, 3, 7]

/-- The path metrics `alpha[j] + p[j] z + beta[π0(j)]`, in exact integers. -/
def path0 (z : Int) (alpha beta : V16) : V16 := fun j =>
  alpha j + parPolarity j * z + beta (pi0 j)

/-- The path metrics `alpha[j] - p[j] z + beta[π1(j)]`, in exact integers. -/
def path1 (z : Int) (alpha beta : V16) : V16 := fun j =>
  alpha j - parPolarity j * z + beta (pi1 j)

/-- The maximum over the lanes `0..7`. -/
def hmax (v : V16) : Int :=
  max (v 0) (max (v 1) (max (v 2) (max (v 3) (max (v 4) (max (v 5) (max (v 6) (v 7)))))))

/-- No lane sum of the LLR gather leaves the `int16_t` range: the partial sums
`alpha[j] ± p[j] z` and the full path metrics of every lane. -/
abbrev LlrSumsInRange (z : Int) (alpha beta : V16) : Prop :=
  ∀ j : Fin 8,
    I16 (alpha j + parPolarity j * z) ∧
    I16 (alpha j - parPolarity j * z) ∧
    I16 (path0 z alpha beta j) ∧
    I16 (path1 z alpha beta j)

/-- No lane sum of the LLR extraction leaves the `int16_t` range: the sums of
`LlrSumsInRange` and the final difference of the two maxima. -/
abbrev LlrInRange (z : Int) (alpha beta : V16) : Prop :=
  LlrSumsInRange z alpha beta ∧
  I16 (hmax (path1 z alpha beta) - hmax (path0 z alpha beta))

/-- The vector with `c` added to every lane. -/
def shift (a : V16) (c : Int) : V16 := fun i => a i + c

/-- The systematic polarity of the four upper transitions, `s = (-1, 1, -1, 1)`. -/
def sysPolarity4 : Fin 4 → Int := ![-1, 1, -1, 1]

/-- The parity polarity of the four upper transitions, `q = (-1, -1, 1, 1)`. -/
def parPolarity4 : Fin 4 → Int := ![-1, -1, 1, 1]

/-- The branch-metric formula of the specification with saturating additions:
`sat16(sat16(sign(x, s[i]) + sign(z, q[i])) + (sign(le, s[i]) >> 1))`. -/
def branchMetricSat (x z le : Int) (i : Fin 4) : Int :=
  sat16 (sat16 (sign16 x (sysPolarity4 i) + sign16 z (parPolarity4 i))
    + asr1 (sign16 le (sysPolarity4 i)))

/-- The value of a 16-bit lane read as an unsigned number. -/
def u16 (v : Int) : Int := v % 65536

/-- Lane `k` holds the smallest lane of `a` as unsigned 16-bit values, and no lane before
`k` does. -/
abbrev IsUnsignedMinPos (a : V16) (k : Fin 8) : Prop :=
  (∀ i : Fin 8, u16 (a k) ≤ u16 (a i)) ∧ ∀ i : Fin 8, i < k → u16 (a k) < u16 (a i)

/-- Lane `k` holds the signed maximum of `v`, and no lane before `k` does. -/
abbrev IsMaxPos (v : V16) (k : Fin 8) : Prop :=
  (∀ i : Fin 8, v i ≤ v k) ∧ ∀ i : Fin 8, i < k → v i < v k

/-- Lane `s` is gathered for destination lane `j` by the forward step (through
`FW_SHUFFLE_MASK0` or `FW_SHUFFLE_MASK1`): `s` is a predecessor of `j`. -/
abbrev fwPred (s j : Fin 8) : Prop := s = pred0 j ∨ s = pred1 j

/-- Lane `j` of the old `beta` feeds lane `s` of the new one in the backward step (through
`ci_unpacklo_epi16` or `ci_unpackhi_epi16`): `j` is a successor of `s`. -/
abbrev bwSucc (s j : Fin 8) : Prop := j = succLo s ∨ j = succHi s

/-- Lane `j` of `beta` is paired with lane `s` of `alpha` by the LLR gathers (through
`LV_BW_SHUFFLE_MASK0` or `LV_BW_SHUFFLE_MASK1`). -/
abbrev llrSucc (s j : Fin 8) : Prop := j = pi0 s ∨ j = pi1 s

/-- The metric the forward step adds on the transition from lane `s` to lane `j`:
`m6[j]` on the candidate gathered through `FW_SHUFFLE_MASK0`, `m7[j]` on the candidate
gathered through `FW_SHUFFLE_MASK1` (and `0` where `s` is not gathered for `j`). -/
def fwTransitionMetric (x z le : Int) (s j : Fin 8) : Int :=
  if s = pred0 j then fw_m6 x z le j
  else if s = pred1 j then fw_m7 x z le j
  else 0

/-- The metric the backward step adds on the transition from lane `s` to lane `j`, read
from the buffer `bm` alone: `bm[s]` on the candidate taken through `ci_unpacklo_epi16`,
`-bm[s]` on the candidate taken through `ci_unpackhi_epi16` (and `0` where `j` does not
feed `s`). -/
def bwTransitionMetric (bm : V16) (s j : Fin 8) : Int :=
  if j = succLo s then bm s
  else if j = succHi s then -(bm s)
  else 0

/-- A forward metric vector used to evaluate the forward step. -/
def exAlpha : V16 := ![0, -5, -3, -10, 2, -7, -1, -4]

/-- A backward metric vector used to evaluate the backward step. -/
def exBeta : V16 := ![3, 1, 4, 1, 5, 9, 2, 6]

/-- A branch-metric buffer: the one the forward step writes for `x = 3, z = -2, le = 7`. -/
def exBm : V16 := ![-5, 5, 8, -8, -9, 9, 4, -4]

/-- A forward metric vector that holds the largest `int16_t` in lane 0. -/
def satAlpha : V16 := ![32767, 0, 0, 0, 0, 0, 0, 0]

/-- A vector that holds `1` in lane 0. -/
def unitLane0 : V16 := ![1, 0, 0, 0, 0, 0, 0, 0]

/-- A vector whose lane 1 is negative: read as unsigned, lane 0 is the smallest. -/
def negLane1 : V16 := ![0, -1, 0, 0, 0, 0, 0, 0]

/-- A vector of mixed signs whose maximum `5` is in lane 0. -/
def mixedSigns : V16 := ![5, -3, 0, 0, 0, 0, 0, 0]

/-- A sixteen-byte table. -/
def exTable : V8 := ![10, 11, 12, 13, 14, 15, 16, 17, 18, 19, 20, 21, 22, 23, 24, 25]

/-- A sixteen-byte index vector with a negative entry, entries above 15 and entries in
`0..15`. -/
def exIndices : V8 := ![17, -1, 3, 127, 16, 0, 15, -128, 1, 2, 4, 5, 6, 7, 8, 9]

theorem wrap16_id (v : Int) (h : I16 v) : wrap16 v = v := by
  unfold wrap16; obtain ⟨h1, h2⟩ := h; omega

theorem wrap16_range (v : Int) : I16 (wrap16 v) := by
  unfold wrap16; constructor <;> omega

theorem bytes_pair (v : Int) (h : I16 v) :
    wrap16 (wrap8 v % 256 + 256 * (wrap8 (v / 256) % 256)) = v := by
  unfold wrap16 wrap8; obtain ⟨h1, h2⟩ := h; omega

theorem shuffle_FW0 (a : V16) (h : V16ok a) (j : Fin 8) :
    ofBytes (ci_shuffle_epi8 (toBytes a) FW_SHUFFLE_MASK0) j = a (pred0 j) := by
  fin_cases j <;>
    simp [ofBytes, ci_shuffle_epi8, toBytes, FW_SHUFFLE_MASK0, ci_set_epi8, pred0] <;>
    exact bytes_pair _ (h _)

theorem shuffle_FW1 (a : V16) (h : V16ok a) (j : Fin 8) :
    ofBytes (ci_shuffle_epi8 (toBytes a) FW_SHUFFLE_MASK1) j = a (pred1 j) := by
  fin_cases j <;>
    simp [ofBytes, ci_shuffle_epi8, toBytes, FW_SHUFFLE_MASK1, ci_set_epi8, pred1] <;>
    exact bytes_pair _ (h _)

theorem shuffle_LV0 (a : V16) (h : V16ok a) (j : Fin 8) :
    ofBytes (ci_shuffle_epi8 (toBytes a) LV_BW_SHUFFLE_MASK0) j = a (pi0 j) := by
  fin_cases j <;>
    simp [ofBytes, ci_shuffle_epi8, toBytes, LV_BW_SHUFFLE_MASK0, ci_set_epi8, pi0] <;>
    exact bytes_pair _ (h _)

theorem shuffle_LV1 (a : V16) (h : V16ok a) (j : Fin 8) :
    ofBytes (ci_shuffle_epi8 (toBytes a) LV_BW_SHUFFLE_MASK1) j = a (pi1 j) := by
  fin_cases j <;>
    simp [ofBytes, ci_shuffle_epi8, toBytes, LV_BW_SHUFFLE_MASK1, ci_set_epi8, pi1] <;>
    exact bytes_pair _ (h _)


theorem ci_load_si128_eq (a : V16) : ci_load_si128 a = a := rfl

theorem ci_store_si128_eq (a : V16) : ci_store_si128 a = a := rfl

theorem system_fw_eq : LTE_SYSTEM_FW_SHUFFLE = sysPolarity := rfl

theorem parity_fw_eq : LTE_PARITY_FW_SHUFFLE = parPolarity := rfl

theorem parity_bw_eq : LTE_PARITY_BW_SHUFFLE = parPolarity := rfl

theorem sysPolarity_cases (j : Fin 8) : sysPolarity j = -1 ∨ sysPolarity j = 1 := by
  revert j; decide

theorem parPolarity_cases (j : Fin 8) : parPolarity j = -1 ∨ parPolarity j = 1 := by
  revert j; decide

theorem ci_sign_epi16_eq (a b : V16) (i : Fin 8) :
    ci_sign_epi16 a b i = sign16 (a i) (b i) := by
  unfold ci_sign_epi16 sign16
  split_ifs <;> first | rfl | omega

theorem sign16_small (a s : Int) (h : I8 a) : -128 ≤ sign16 a s ∧ sign16 a s ≤ 128 := by
  obtain ⟨h1, h2⟩ := h
  unfold sign16 wrap16
  split_ifs <;> omega

theorem sign16_range (a s : Int) (h : I16 a) : I16 (sign16 a s) := by
  obtain ⟨h1, h2⟩ := h
  unfold sign16 wrap16
  split_ifs <;> constructor <;> omega

/-- The vector `m6` of the scalar forward step is the branch metric of the specification,
and it stays well inside the 16-bit range. -/
theorem fw_m6_eq (x z le : Int) (hx : I8 x) (hz : I8 z) (hle : I16 le) (j : Fin 8) :
    fw_m6 x z le j = branchMetric x z le j ∧
      -16640 ≤ branchMetric x z le j ∧ branchMetric x z le j ≤ 16639 := by
  have e : fw_m6 x z le j
      = wrap16 (wrap16 (sign16 x (sysPolarity j) + sign16 z (parPolarity j))
          + wrap16 (sign16 le (sysPolarity j) >>> (1 : Nat))) := by
    simp only [fw_m6, ci_adds_epi16, ci_srai_epi16, ci_sign_epi16_eq, ci_set1_epi16,
      system_fw_eq, parity_fw_eq]
    rw [if_neg (by decide)]
  obtain ⟨a1, a2⟩ := sign16_small x (sysPolarity j) hx
  obtain ⟨b1, b2⟩ := sign16_small z (parPolarity j) hz
  obtain ⟨c1, c2⟩ := sign16_range le (sysPolarity j) hle
  rw [e]
  have hsh : ∀ c : Int, c >>> (1 : Nat) = c / 2 := fun c => by
    rw [Int.shiftRight_eq_div_pow]; rfl
  simp only [branchMetric, asr1, hsh]
  generalize sign16 x (sysPolarity j) = a at *
  generalize sign16 z (parPolarity j) = b at *
  generalize sign16 le (sysPolarity j) = c at *
  unfold wrap16
  omega

theorem ci_max_epi16_eq (a b : V16) : ci_max_epi16 a b = fun i => max (a i) (b i) := by
  funext i; unfold ci_max_epi16; omega

theorem MAXPOS_CI_eq (v : V16) : MAXPOS_CI v 0 = hmax v := by
  have e : MAXPOS_CI v 0
      = max (max (max (v 0) (v 4)) (max (v 2) (v 6))) (max (max (v 1) (v 5)) (max (v 3) (v 7))) := by
    simp only [MAXPOS_CI, ci_max_epi16_eq]
    rfl
  rw [e, hmax]
  ac_rfl

theorem bw_m13_eq (z : Int) (hz : I8 z) (j : Fin 8) :
    ci_sign_epi16 (ci_set1_epi16 z) LTE_PARITY_BW_SHUFFLE j = parPolarity j * z := by
  obtain ⟨hz1, hz2⟩ := hz
  rw [ci_sign_epi16_eq, parity_bw_eq]
  rcases parPolarity_cases j with h | h <;>
    (simp [h, sign16, ci_set1_epi16, wrap16]; try omega)



theorem fw_m0_eq (x z le : Int) (a : V16) (hx : I8 x) (hz : I8 z) (hle : I16 le)
    (ha : V16ok a) (j : Fin 8)
    (h0 : I16 (a (pred0 j) + branchMetric x z le j))
    (h1 : I16 (a (pred1 j) - branchMetric x z le j)) :
    fw_m0 x z le a j = acsRaw x z le a j := by
  obtain ⟨hg, hg1, hg2⟩ := fw_m6_eq x z le hx hz hle j
  have hs0 := shuffle_FW0 a ha j
  have hs1 := shuffle_FW1 a ha j
  simp only [fw_m0, ci_max_epi16_eq, ci_adds_epi16, ci_subs_epi16, ci_setzero_si128,
    ci_load_si128_eq, acsRaw, hs0, hs1, hg]
  obtain ⟨h01, h02⟩ := h0
  obtain ⟨h11, h12⟩ := h1
  unfold wrap16
  omega

theorem fw_sums_c_eq (x z le : Int) (a : V16) (j : Fin 8) :
    (gen_fw_metrics x z a le).sums_c j = wrap16 (fw_m0 x z le a j - fw_m0 x z le a 0) := rfl

theorem fw_ret_eq (x z le : Int) (a : V16) :
    (gen_fw_metrics x z a le).ret = fw_m0 x z le a 0 := rfl

theorem fw_bm_eq (x z le : Int) (a : V16) :
    (gen_fw_metrics x z a le).bm =
      ci_unpacklo_epi16 (fw_m6 x z le) (ci_subs_epi16 ci_setzero_si128 (fw_m6 x z le)) := rfl



theorem bw_m11_eq (z : Int) (alpha beta : V16) (hz : I8 z) (hb : V16ok beta) (j : Fin 8)
    (h0 : I16 (alpha j + parPolarity j * z)) (h1 : I16 (path0 z alpha beta j)) :
    bw_m11 z alpha beta j = path0 z alpha beta j := by
  have hs := shuffle_LV0 beta hb j
  have hp := bw_m13_eq z hz j
  simp only [bw_m11, ci_adds_epi16, ci_load_si128_eq, hs, hp, path0] at *
  rw [wrap16_id _ h0, wrap16_id _ h1]

theorem bw_m12_eq (z : Int) (alpha beta : V16) (hz : I8 z) (hb : V16ok beta) (j : Fin 8)
    (h0 : I16 (alpha j - parPolarity j * z)) (h1 : I16 (path1 z alpha beta j)) :
    bw_m12 z alpha beta j = path1 z alpha beta j := by
  have hs := shuffle_LV1 beta hb j
  have hp := bw_m13_eq z hz j
  simp only [bw_m12, ci_adds_epi16, ci_subs_epi16, ci_load_si128_eq, hs, hp, path1] at *
  rw [wrap16_id _ h0, wrap16_id _ h1]

theorem bw_ret_eq (bm : V16) (z : Int) (fw bw : V16) (norm : Int) :
    (gen_bw_metrics bm z fw bw norm).ret
      = wrap16 (MAXPOS_CI (bw_m12 z fw bw) 0 - MAXPOS_CI (bw_m11 z fw bw) 0) := rfl

theorem bw_llr_eq (bm : V16) (z : Int) (alpha beta : V16) (norm : Int) (hz : I8 z)
    (hb : V16ok beta) (h : LlrSumsInRange z alpha beta) :
    (gen_bw_metrics bm z alpha beta norm).ret
      = wrap16 (hmax (path1 z alpha beta) - hmax (path0 z alpha beta)) := by
  have e11 : bw_m11 z alpha beta = path0 z alpha beta :=
    funext fun j => bw_m11_eq z alpha beta hz hb j (h j).1 (h j).2.2.1
  have e12 : bw_m12 z alpha beta = path1 z alpha beta :=
    funext fun j => bw_m12_eq z alpha beta hz hb j (h j).2.1 (h j).2.2.2
  rw [bw_ret_eq, MAXPOS_CI_eq, MAXPOS_CI_eq, e11, e12]

theorem bw_beta_eq (bm : V16) (z : Int) (alpha beta : V16) (norm : Int) (s : Fin 8)
    (h0 : I16 (beta (succLo s) + bm s)) (h1 : I16 (beta (succHi s) - bm s))
    (h2 : I16 (betaUpdate bm beta norm s)) :
    (gen_bw_metrics bm z alpha beta norm).bw s = betaUpdate bm beta norm s := by
  have elo : ci_unpacklo_epi16 beta beta s = beta (succLo s) := by
    fin_cases s <;> rfl
  have ehi : ci_unpackhi_epi16 beta beta s = beta (succHi s) := by
    fin_cases s <;> rfl
  simp only [gen_bw_metrics, ci_store_si128_eq, ci_load_si128_eq, ci_subs_epi16,
    ci_max_epi16_eq, ci_adds_epi16, ci_set1_epi16, elo, ehi, betaUpdate] at *
  obtain ⟨h01, h02⟩ := h0
  obtain ⟨h11, h12⟩ := h1
  obtain ⟨h21, h22⟩ := h2
  unfold wrap16
  omega

theorem hmax_shift (v : V16) (c : Int) : hmax (fun j => v j + c) = hmax v + c := by
  simp only [hmax, max_add_add_right]

theorem hmax_ge (v : V16) (j : Fin 8) : v j ≤ hmax v := by
  unfold hmax
  fin_cases j <;> simp

theorem hmax_attained (v : V16) : ∃ j : Fin 8, v j = hmax v := by
  have h : hmax v = v 0 ∨ hmax v = v 1 ∨ hmax v = v 2 ∨ hmax v = v 3 ∨ hmax v = v 4 ∨
      hmax v = v 5 ∨ hmax v = v 6 ∨ hmax v = v 7 := by
    unfold hmax
    omega
  rcases h with h | h | h | h | h | h | h | h
  exacts [⟨0, h.symm⟩, ⟨1, h.symm⟩, ⟨2, h.symm⟩, ⟨3, h.symm⟩, ⟨4, h.symm⟩, ⟨5, h.symm⟩,
    ⟨6, h.symm⟩, ⟨7, h.symm⟩]

theorem acsRaw_shift (x z le : Int) (a : V16) (c : Int) (j : Fin 8) :
    acsRaw x z le (fun i => a i - c) j = acsRaw x z le a j - c := by
  simp only [acsRaw]
  omega

theorem fw_sums_c_exact (x z le : Int) (a : V16) (hx : I8 x) (hz : I8 z) (hle : I16 le)
    (ha : V16ok a) (hr : FwInRange x z le a) (j : Fin 8) :
    (gen_fw_metrics x z a le).sums_c j = acsRaw x z le a j - acsRaw x z le a 0 := by
  rw [fw_sums_c_eq, fw_m0_eq x z le a hx hz hle ha j (hr j).1 (hr j).2.1,
    fw_m0_eq x z le a hx hz hle ha 0 (hr 0).1 (hr 0).2.1]
  exact wrap16_id _ (hr j).2.2

/-! ## The claims -/

/-- C1 (defect): the scalar emulation and the SSE path of `gen_fw_metrics` and
`gen_bw_metrics` do not agree once a lane sum leaves the signed 16-bit range. With
`alpha_prev = (32767, 0, ..., 0)`, `x = -1`, `z = le = 0` the SSE forward step (with or
without `HAVE_AVX2`) returns `32767` while the scalar one returns `-1`, and the stored
`alpha_next` differ; with `bw = (32767, 0, ..., 0)`, `bm = fw = (1, 0, ..., 0)`,
`z = norm = 0` the SSE backward step (with or without `HAVE_SSE4_1`) returns LLR `0` and
new `beta[0] = 32767` while the scalar one returns `32767` and `beta[0] = -1`. -/
theorem C1_scalar_and_sse_differ_when_saturating :
    V16ok satAlpha ∧ V16ok unitLane0 ∧
    (gen_fw_metrics (-1) 0 satAlpha 0).ret = -1 ∧
    (Sse.gen_fw_metrics true (-1) 0 satAlpha 0).ret = 32767 ∧
    (Sse.gen_fw_metrics false (-1) 0 satAlpha 0).ret = 32767 ∧
    (gen_fw_metrics (-1) 0 satAlpha 0).sums_c 4 = 32767 ∧
    (Sse.gen_fw_metrics true (-1) 0 satAlpha 0).sums_c 4 = -1 ∧
    (Sse.gen_fw_metrics false (-1) 0 satAlpha 0).sums_c 4 = -1 ∧
    (gen_bw_metrics unitLane0 0 unitLane0 satAlpha 0).ret = 32767 ∧
    (Sse.gen_bw_metrics true unitLane0 0 unitLane0 satAlpha 0).ret = 0 ∧
    (Sse.gen_bw_metrics false unitLane0 0 unitLane0 satAlpha 0).ret = 0 ∧
    (gen_bw_metrics unitLane0 0 unitLane0 satAlpha 0).bw 0 = -1 ∧
    (Sse.gen_bw_metrics true unitLane0 0 unitLane0 satAlpha 0).bw 0 = 32767 ∧
    (Sse.gen_bw_metrics false unitLane0 0 unitLane0 satAlpha 0).bw 0 = 32767 := by
  refine ⟨by decide, by decide, by decide, by decide, by decide, by decide, by decide,
    by decide, by decide, by decide, by decide, by decide, by decide, by decide⟩

/-- C2: when no lane sum of the LLR extraction leaves the signed 16-bit range, the value
returned by the scalar `gen_bw_metrics` is the maximum over the lanes of
`alpha[j] - p[j] z + beta[π1(j)]` minus the maximum over the lanes of
`alpha[j] + p[j] z + beta[π0(j)]`, with `beta` the buffer as it was before the call; the
branch-metric buffer and `norm` do not enter. -/
theorem C2_llr_is_difference_of_path_maxima (bm : V16) (z : Int) (alpha beta : V16)
    (norm : Int) (hz : I8 z) (hb : V16ok beta) (h : LlrInRange z alpha beta) :
    (gen_bw_metrics bm z alpha beta norm).ret
      = hmax (path1 z alpha beta) - hmax (path0 z alpha beta) := by
  rw [bw_llr_eq bm z alpha beta norm hz hb h.1]
  exact wrap16_id _ h.2

theorem C2_witness :
    I8 (-2) ∧ V16ok exBeta ∧ LlrInRange (-2) exAlpha exBeta ∧
    (gen_bw_metrics exBm (-2) exAlpha exBeta 4).ret
      = hmax (path1 (-2) exAlpha exBeta) - hmax (path0 (-2) exAlpha exBeta) :=
  ⟨by decide, by decide, by decide,
    C2_llr_is_difference_of_path_maxima exBm (-2) exAlpha exBeta 4
      (by decide) (by decide) (by decide)⟩

/-- C3: add-compare-select of the forward step. When no lane sum leaves the signed 16-bit
range, the `alpha_next` stored by the scalar `gen_fw_metrics` equals
`raw[j] = max(alpha_prev[2 (j mod 4)] + g[j], alpha_prev[2 (j mod 4) + 1] - g[j])` up to
one common offset: `alpha_next[j] - alpha_next[k] = raw[j] - raw[k]` for all lanes. -/
theorem C3_forward_add_compare_select (x z le : Int) (alpha_prev : V16)
    (hx : I8 x) (hz : I8 z) (hle : I16 le) (ha : V16ok alpha_prev)
    (hr : FwInRange x z le alpha_prev) (j k : Fin 8) :
    (gen_fw_metrics x z alpha_prev le).sums_c j - (gen_fw_metrics x z alpha_prev le).sums_c k
      = acsRaw x z le alpha_prev j - acsRaw x z le alpha_prev k := by
  rw [fw_sums_c_exact x z le alpha_prev hx hz hle ha hr j,
    fw_sums_c_exact x z le alpha_prev hx hz hle ha hr k]
  omega

theorem C3_witness :
    I8 3 ∧ I8 (-2) ∧ I16 7 ∧ V16ok exAlpha ∧ FwInRange 3 (-2) 7 exAlpha ∧
    (gen_fw_metrics 3 (-2) exAlpha 7).sums_c 6 - (gen_fw_metrics 3 (-2) exAlpha 7).sums_c 5
      = acsRaw 3 (-2) 7 exAlpha 6 - acsRaw 3 (-2) 7 exAlpha 5 :=
  ⟨by decide, by decide, by decide, by decide, by decide,
    C3_forward_add_compare_select 3 (-2) 7 exAlpha
      (by decide) (by decide) (by decide) (by decide) (by decide) 6 5⟩

/-- C4: backward metric update. When no lane sum leaves the signed 16-bit range, the `beta`
written by the scalar `gen_bw_metrics` is
`max(beta[⌊s/2⌋] + bm[s], beta[⌊s/2⌋ + 4] - bm[s]) - norm` in every lane, and it is the
same whatever `z` and `alpha` are. -/
theorem C4_backward_metric_update (bm : V16) (z : Int) (alpha beta : V16) (norm : Int)
    (hr : BwInRange bm beta norm) :
    (∀ s : Fin 8, (gen_bw_metrics bm z alpha beta norm).bw s
        = max (beta (succLo s) + bm s) (beta (succHi s) - bm s) - norm) ∧
    (∀ (z2 : Int) (alpha2 : V16),
      (gen_bw_metrics bm z2 alpha2 beta norm).bw = (gen_bw_metrics bm z alpha beta norm).bw) :=
  ⟨fun s => bw_beta_eq bm z alpha beta norm s (hr s).1 (hr s).2.1 (hr s).2.2,
    fun _ _ => rfl⟩

theorem C4_witness :
    BwInRange exBm exBeta 4 ∧
    (∀ s : Fin 8, (gen_bw_metrics exBm (-2) exAlpha exBeta 4).bw s
        = max (exBeta (succLo s) + exBm s) (exBeta (succHi s) - exBm s) - 4) ∧
    (∀ (z2 : Int) (alpha2 : V16),
      (gen_bw_metrics exBm z2 alpha2 exBeta 4).bw
        = (gen_bw_metrics exBm (-2) exAlpha exBeta 4).bw) :=
  ⟨by decide, C4_backward_metric_update exBm (-2) exAlpha exBeta 4 (by decide)⟩

/-- C5: for every 8-bit `x`, `z` and 16-bit `le`, the even lanes of the `bm` buffer written
by the scalar `gen_fw_metrics` equal the saturating formula of the specification,
`bm[2i] = sat16(sat16(sign(x, s[i]) + sign(z, q[i])) + (sign(le, s[i]) >> 1))`: the plain
16-bit additions of the emulation never leave the range here. -/
theorem C5_bm_even_lanes_match_saturating_formula (x z le : Int) (sums_p : V16)
    (hx : I8 x) (hz : I8 z) (hle : I16 le) (i : Fin 4) :
    (gen_fw_metrics x z sums_p le).bm ⟨2 * i.val, by omega⟩ = branchMetricSat x z le i := by
  have e : (gen_fw_metrics x z sums_p le).bm ⟨2 * i.val, by omega⟩
      = fw_m6 x z le ⟨i.val, by omega⟩ := by
    fin_cases i <;> rfl
  have es : sysPolarity4 i = sysPolarity ⟨i.val, by omega⟩ := by
    fin_cases i <;> rfl
  have eq : parPolarity4 i = parPolarity ⟨i.val, by omega⟩ := by
    fin_cases i <;> rfl
  obtain ⟨hg, -, -⟩ := fw_m6_eq x z le hx hz hle ⟨i.val, by omega⟩
  obtain ⟨a1, a2⟩ := sign16_small x (sysPolarity ⟨i.val, by omega⟩) hx
  obtain ⟨b1, b2⟩ := sign16_small z (parPolarity ⟨i.val, by omega⟩) hz
  obtain ⟨c1, c2⟩ := sign16_range le (sysPolarity ⟨i.val, by omega⟩) hle
  rw [e, hg]
  simp only [branchMetricSat, branchMetric, es, eq, asr1]
  unfold sat16
  omega

theorem C5_witness :
    I8 3 ∧ I8 (-2) ∧ I16 7 ∧
    (gen_fw_metrics 3 (-2) exAlpha 7).bm ⟨2 * (1 : Fin 4).val, by decide⟩
      = branchMetricSat 3 (-2) 7 1 :=
  ⟨by decide, by decide, by decide,
    C5_bm_even_lanes_match_saturating_formula 3 (-2) 7 exAlpha
      (by decide) (by decide) (by decide) 1⟩

/-- C6: anti-symmetry of the branch-metric buffer. For every 8-bit `x`, `z`, 16-bit `le`
and every `alpha_prev`, the `bm` buffer written by `gen_fw_metrics` satisfies
`bm[2i+1] = -bm[2i]` for `i` in `0..3`, the negation being that of the integers. -/
theorem C6_bm_odd_lanes_negate_even_lanes (x z le : Int) (alpha_prev : V16)
    (hx : I8 x) (hz : I8 z) (hle : I16 le) (i : Fin 4) :
    (gen_fw_metrics x z alpha_prev le).bm ⟨2 * i.val + 1, by omega⟩
      = -(gen_fw_metrics x z alpha_prev le).bm ⟨2 * i.val, by omega⟩ := by
  have e0 : (gen_fw_metrics x z alpha_prev le).bm ⟨2 * i.val, by omega⟩
      = fw_m6 x z le ⟨i.val, by omega⟩ := by
    fin_cases i <;> rfl
  have e1 : (gen_fw_metrics x z alpha_prev le).bm ⟨2 * i.val + 1, by omega⟩
      = wrap16 (0 - fw_m6 x z le ⟨i.val, by omega⟩) := by
    fin_cases i <;> rfl
  obtain ⟨hg, g1, g2⟩ := fw_m6_eq x z le hx hz hle ⟨i.val, by omega⟩
  rw [e0, e1, hg]
  unfold wrap16
  omega

theorem C6_witness :
    I8 3 ∧ I8 (-2) ∧ I16 7 ∧
    (gen_fw_metrics 3 (-2) exAlpha 7).bm ⟨2 * (2 : Fin 4).val + 1, by decide⟩
      = -(gen_fw_metrics 3 (-2) exAlpha 7).bm ⟨2 * (2 : Fin 4).val, by decide⟩ :=
  ⟨by decide, by decide, by decide,
    C6_bm_odd_lanes_negate_even_lanes 3 (-2) 7 exAlpha (by decide) (by decide) (by decide) 2⟩

/-- C7 as stated fails: for `x = 3`, `z = -2`, `le = 7` and
`alpha_prev = (0, -5, -3, -10, 2, -7, -1, -4)` no lane sum leaves the 16-bit range, and
the stored `alpha_next` is `(0, 5, 2, 3, 4, -1, 10, 1)`: its largest lane is `10`, not `0`,
and the value subtracted, `0`, is lane 0 of the new metrics and not their maximum. -/
theorem C7_counterexample :
    I8 3 ∧ I8 (-2) ∧ I16 7 ∧ V16ok exAlpha ∧ FwInRange 3 (-2) 7 exAlpha ∧
    (gen_fw_metrics 3 (-2) exAlpha 7).sums_c = ![0, 5, 2, 3, 4, -1, 10, 1] ∧
    (gen_fw_metrics 3 (-2) exAlpha 7).ret = 0 ∧
    hmax (fw_m0 3 (-2) 7 exAlpha) = 10 ∧
    ¬ (∀ j : Fin 8, (gen_fw_metrics 3 (-2) exAlpha 7).sums_c j ≤ 0) := by
  refine ⟨by decide, by decide, by decide, by decide, by decide, by decide, by decide,
    by decide, by decide⟩

/-- C7 (amended): for every `alpha_prev`, `x`, `z` and `le`, the `alpha_next` stored by
`gen_fw_metrics` is normalised by lane 0: the value subtracted from every lane (and
returned) is lane 0 of the new metric vector, so lane 0 of `alpha_next` equals 0. -/
theorem C7_alpha_next_normalised_by_lane0 (x z le : Int) (alpha_prev : V16) :
    (gen_fw_metrics x z alpha_prev le).ret = fw_m0 x z le alpha_prev 0 ∧
    (∀ j : Fin 8, (gen_fw_metrics x z alpha_prev le).sums_c j
      = wrap16 (fw_m0 x z le alpha_prev j - (gen_fw_metrics x z alpha_prev le).ret)) ∧
    (gen_fw_metrics x z alpha_prev le).sums_c 0 = 0 := by
  refine ⟨rfl, fun _ => rfl, ?_⟩
  rw [fw_sums_c_eq, sub_self]
  rfl

/-- C8 as stated fails: for `x = 3`, `z = -2`, `le = 7`,
`alpha_prev = (0, -5, -3, -10, 2, -7, -1, -4)` and `C = 10` no lane sum leaves the 16-bit
range in either run, and the run on `alpha_prev - C` stores the very same `alpha_next`
as the unshifted run: no lane differs by `C`. -/
theorem C8_counterexample :
    I8 3 ∧ I8 (-2) ∧ I16 7 ∧ V16ok exAlpha ∧ V16ok (fun i => exAlpha i - 10) ∧
    FwInRange 3 (-2) 7 exAlpha ∧ FwInRange 3 (-2) 7 (fun i => exAlpha i - 10) ∧
    ∀ j : Fin 8,
      (gen_fw_metrics 3 (-2) (fun i => exAlpha i - 10) 7).sums_c j
          ≠ (gen_fw_metrics 3 (-2) exAlpha 7).sums_c j - 10 ∧
      (gen_fw_metrics 3 (-2) (fun i => exAlpha i - 10) 7).sums_c j
          ≠ (gen_fw_metrics 3 (-2) exAlpha 7).sums_c j + 10 := by
  refine ⟨by decide, by decide, by decide, by decide, by decide, by decide, by decide,
    by decide⟩

/-- C8 (amended): normalisation invariance. When no lane leaves the signed 16-bit range in
either run, `gen_fw_metrics` on `alpha_prev` with `C` subtracted from every lane stores an
`alpha_next` identical to that of the unshifted run, and an identical `bm` buffer. -/
theorem C8_shifted_alpha_prev_same_outputs (x z le : Int) (alpha_prev : V16) (C : Int)
    (hx : I8 x) (hz : I8 z) (hle : I16 le)
    (ha : V16ok alpha_prev) (ha2 : V16ok (fun i => alpha_prev i - C))
    (hr : FwInRange x z le alpha_prev) (hr2 : FwInRange x z le (fun i => alpha_prev i - C)) :
    (gen_fw_metrics x z (fun i => alpha_prev i - C) le).sums_c
        = (gen_fw_metrics x z alpha_prev le).sums_c ∧
    (gen_fw_metrics x z (fun i => alpha_prev i - C) le).bm
        = (gen_fw_metrics x z alpha_prev le).bm := by
  refine ⟨funext fun j => ?_, rfl⟩
  rw [fw_sums_c_exact x z le _ hx hz hle ha2 hr2 j,
    fw_sums_c_exact x z le alpha_prev hx hz hle ha hr j, acsRaw_shift, acsRaw_shift]
  omega

theorem C8_witness :
    I8 3 ∧ I8 (-2) ∧ I16 7 ∧ V16ok exAlpha ∧ V16ok (fun i => exAlpha i - 10) ∧
    FwInRange 3 (-2) 7 exAlpha ∧ FwInRange 3 (-2) 7 (fun i => exAlpha i - 10) ∧
    (gen_fw_metrics 3 (-2) (fun i => exAlpha i - 10) 7).sums_c
        = (gen_fw_metrics 3 (-2) exAlpha 7).sums_c ∧
    (gen_fw_metrics 3 (-2) (fun i => exAlpha i - 10) 7).bm
        = (gen_fw_metrics 3 (-2) exAlpha 7).bm :=
  ⟨by decide, by decide, by decide, by decide, by decide, by decide, by decide,
    C8_shifted_alpha_prev_same_outputs 3 (-2) 7 exAlpha 10
      (by decide) (by decide) (by decide) (by decide) (by decide) (by decide) (by decide)⟩

/-- C9: LLR shift invariance. When no lane sum leaves the signed 16-bit range in either
run, `gen_bw_metrics` called with `C` added to every lane of `alpha` and of `beta` returns
the same LLR as the call with the unshifted `alpha` and `beta`. -/
theorem C9_llr_shift_invariance (bm : V16) (z : Int) (alpha beta : V16) (norm C : Int)
    (hz : I8 z) (hb : V16ok beta) (hb2 : V16ok (shift beta C))
    (h : LlrSumsInRange z alpha beta)
    (h2 : LlrSumsInRange z (shift alpha C) (shift beta C)) :
    (gen_bw_metrics bm z (shift alpha C) (shift beta C) norm).ret
      = (gen_bw_metrics bm z alpha beta norm).ret := by
  have e0 : path0 z (shift alpha C) (shift beta C)
      = fun j => path0 z alpha beta j + 2 * C := by
    funext j; simp only [path0, shift]; omega
  have e1 : path1 z (shift alpha C) (shift beta C)
      = fun j => path1 z alpha beta j + 2 * C := by
    funext j; simp only [path1, shift]; omega
  rw [bw_llr_eq bm z _ _ norm hz hb2 h2, bw_llr_eq bm z alpha beta norm hz hb h,
    e0, e1, hmax_shift, hmax_shift]
  congr 1
  omega

theorem C9_witness :
    I8 (-2) ∧ V16ok exBeta ∧ V16ok (shift exBeta 100) ∧
    LlrSumsInRange (-2) exAlpha exBeta ∧
    LlrSumsInRange (-2) (shift exAlpha 100) (shift exBeta 100) ∧
    (gen_bw_metrics exBm (-2) (shift exAlpha 100) (shift exBeta 100) 4).ret
      = (gen_bw_metrics exBm (-2) exAlpha exBeta 4).ret :=
  ⟨by decide, by decide, by decide, by decide, by decide,
    C9_llr_shift_invariance exBm (-2) exAlpha exBeta 4 100
      (by decide) (by decide) (by decide) (by decide) (by decide)⟩

/-- C10 (defect): `ci_adds_epi16` and `ci_subs_epi16` wrap around instead of saturating.
For `a[i] = 32767`, `b[i] = 1` the sum lane is `-32768` where the clamp is `32767`; for
`a[i] = -32768`, `b[i] = 1` the difference lane is `32767` where the clamp is `-32768`. -/
theorem C10_adds_subs_wrap_around :
    ci_adds_epi16 (ci_set1_epi16 32767) (ci_set1_epi16 1) 0 = -32768 ∧
    sat16 (32767 + 1) = 32767 ∧
    ci_subs_epi16 (ci_set1_epi16 (-32768)) (ci_set1_epi16 1) 0 = 32767 ∧
    sat16 (-32768 - 1) = -32768 := by
  refine ⟨by decide, by decide, by decide, by decide⟩

/-! ## Further lemmas on the forward and backward steps -/

theorem fw_m7_eq (x z le : Int) (hx : I8 x) (hz : I8 z) (hle : I16 le) (j : Fin 8) :
    fw_m7 x z le j = -branchMetric x z le j := by
  obtain ⟨hg, g1, g2⟩ := fw_m6_eq x z le hx hz hle j
  simp only [fw_m7, ci_subs_epi16, ci_setzero_si128, hg]
  unfold wrap16
  omega

theorem branchMetric_affine (x z le : Int) (hx : I8 x) (hz : I8 z) (j : Fin 8) :
    branchMetric x z le j
      = sysPolarity j * x + parPolarity j * z + asr1 (sign16 le (sysPolarity j)) := by
  obtain ⟨hx1, hx2⟩ := hx
  obtain ⟨hz1, hz2⟩ := hz
  unfold branchMetric
  rcases sysPolarity_cases j with hs | hs <;> rcases parPolarity_cases j with hq | hq <;>
    (simp only [hs, hq, sign16, wrap16]; norm_num; try omega)

theorem fw_m0_wrap_eq (x z le : Int) (a : V16) (ha : V16ok a) (j : Fin 8) :
    fw_m0 x z le a j
      = max (wrap16 (a (pred0 j) + fw_m6 x z le j)) (wrap16 (a (pred1 j) + fw_m7 x z le j)) := by
  have hs0 := shuffle_FW0 a ha j
  have hs1 := shuffle_FW1 a ha j
  simp only [fw_m0, fw_m7, ci_max_epi16_eq, ci_adds_epi16, ci_load_si128_eq, hs0, hs1]

theorem acsRaw_shift_add (x z le : Int) (a : V16) (c : Int) (j : Fin 8) :
    acsRaw x z le (shift a c) j = acsRaw x z le a j + c := by
  simp only [acsRaw, shift]
  omega

theorem fw_ret_exact (x z le : Int) (a : V16) (hx : I8 x) (hz : I8 z) (hle : I16 le)
    (ha : V16ok a) (hr : FwInRange x z le a) :
    (gen_fw_metrics x z a le).ret = acsRaw x z le a 0 := by
  rw [fw_ret_eq, fw_m0_eq x z le a hx hz hle ha 0 (hr 0).1 (hr 0).2.1]

theorem sysPolarity_lower (i : Fin 4) :
    sysPolarity ⟨i.val + 4, by omega⟩ = -sysPolarity ⟨i.val, by omega⟩ := by
  revert i; decide

theorem parPolarity_lower (i : Fin 4) :
    parPolarity ⟨i.val + 4, by omega⟩ = -parPolarity ⟨i.val, by omega⟩ := by
  revert i; decide

/-- The lower-path branch metric against the negated upper-path one: equal for an even
`le` other than `-32768`, one less for an odd `le`. -/
theorem fw_m6_lower_vs_upper (x z le : Int) (hx : I8 x) (hz : I8 z) (hle : I16 le)
    (i : Fin 4) :
    (le % 2 = 0 → le ≠ -32768 →
      fw_m6 x z le ⟨i.val + 4, by omega⟩ = -fw_m6 x z le ⟨i.val, by omega⟩) ∧
    (le % 2 = 1 →
      fw_m6 x z le ⟨i.val + 4, by omega⟩ = -fw_m6 x z le ⟨i.val, by omega⟩ - 1) := by
  obtain ⟨h4, -, -⟩ := fw_m6_eq x z le hx hz hle ⟨i.val + 4, by omega⟩
  obtain ⟨h0, -, -⟩ := fw_m6_eq x z le hx hz hle ⟨i.val, by omega⟩
  rw [h4, h0, branchMetric_affine x z le hx hz, branchMetric_affine x z le hx hz,
    sysPolarity_lower, parPolarity_lower]
  obtain ⟨hl1, hl2⟩ := hle
  rcases sysPolarity_cases ⟨i.val, by omega⟩ with h | h <;>
    rcases parPolarity_cases ⟨i.val, by omega⟩ with k | k <;>
    rw [h, k] <;>
    unfold sign16 asr1 wrap16 <;>
    norm_num <;>
    constructor <;> intros <;> omega

theorem pi0_transition (s : Fin 8) :
    (s = pred0 (pi0 s) ∧ sysPolarity (pi0 s) = -1 ∧ parPolarity (pi0 s) = parPolarity s) ∨
    (s ≠ pred0 (pi0 s) ∧ s = pred1 (pi0 s) ∧ sysPolarity (pi0 s) = 1 ∧
      parPolarity (pi0 s) = -parPolarity s) := by
  revert s; decide

theorem pi1_transition (s : Fin 8) :
    (s = pred0 (pi1 s) ∧ sysPolarity (pi1 s) = 1 ∧ parPolarity (pi1 s) = -parPolarity s) ∨
    (s ≠ pred0 (pi1 s) ∧ s = pred1 (pi1 s) ∧ sysPolarity (pi1 s) = -1 ∧
      parPolarity (pi1 s) = parPolarity s) := by
  revert s; decide

theorem fwTransitionMetric_pred0 (x z le : Int) (hx : I8 x) (hz : I8 z) (hle : I16 le)
    (s j : Fin 8) (h : s = pred0 j) :
    fwTransitionMetric x z le s j
      = sysPolarity j * x + parPolarity j * z + asr1 (sign16 le (sysPolarity j)) := by
  rw [fwTransitionMetric, if_pos h, (fw_m6_eq x z le hx hz hle j).1,
    branchMetric_affine x z le hx hz]

theorem fwTransitionMetric_pred1 (x z le : Int) (hx : I8 x) (hz : I8 z) (hle : I16 le)
    (s j : Fin 8) (h0 : s ≠ pred0 j) (h : s = pred1 j) :
    fwTransitionMetric x z le s j
      = -(sysPolarity j * x + parPolarity j * z + asr1 (sign16 le (sysPolarity j))) := by
  rw [fwTransitionMetric, if_neg h0, if_pos h, fw_m7_eq x z le hx hz hle,
    branchMetric_affine x z le hx hz]

/-! ## The claims on the primitives and on the trellis tables -/

/-- C11: for every 16-byte table and every 16-byte index vector, `ci_shuffle_epi8` sets
output byte `i` to `0` when `indices[i] < 0` and to `table[indices[i] mod 16]` when
`indices[i] ≥ 0`; the position read, `indices[i] mod 16`, lies in `0..15`, so every output
byte is defined. -/
theorem C11_shuffle_reads_index_mod_16 (table indices : V8) (i : Fin 16) :
    (indices i < 0 → ci_shuffle_epi8 table indices i = 0) ∧
    (0 ≤ indices i →
      0 ≤ indices i % 16 ∧ indices i % 16 < 16 ∧
      ∃ k : Fin 16, (k.val : Int) = indices i % 16 ∧
        ci_shuffle_epi8 table indices i = table k) := by
  refine ⟨fun h => by simp [ci_shuffle_epi8, h], fun h => ⟨by omega, by omega, ?_⟩⟩
  refine ⟨⟨(indices i).toNat % 16, Nat.mod_lt _ (by decide)⟩, ?_, ?_⟩
  · simp only []
    omega
  · simp [ci_shuffle_epi8, not_lt.mpr h]

theorem C11_witness :
    (exIndices 1 < 0 → ci_shuffle_epi8 exTable exIndices 1 = 0) ∧
    (0 ≤ exIndices 1 →
      0 ≤ exIndices 1 % 16 ∧ exIndices 1 % 16 < 16 ∧
      ∃ k : Fin 16, (k.val : Int) = exIndices 1 % 16 ∧
        ci_shuffle_epi8 exTable exIndices 1 = exTable k) :=
  C11_shuffle_reads_index_mod_16 exTable exIndices 1

/-- C12 as stated fails: with the table `(10, 11, ..., 25)` the index byte `17`, which is
greater than 15, yields `table[17 mod 16] = 11`, the index byte `127` yields
`table[15] = 25` and the index byte `16` yields `table[0] = 10`, none of them `0`; only
the negative index bytes `-1` and `-128` yield `0`. -/
theorem C12_counterexample :
    exIndices 0 = 17 ∧ ci_shuffle_epi8 exTable exIndices 0 = 11 ∧
    exIndices 3 = 127 ∧ ci_shuffle_epi8 exTable exIndices 3 = 25 ∧
    exIndices 4 = 16 ∧ ci_shuffle_epi8 exTable exIndices 4 = 10 ∧
    exIndices 1 = -1 ∧ ci_shuffle_epi8 exTable exIndices 1 = 0 ∧
    exIndices 7 = -128 ∧ ci_shuffle_epi8 exTable exIndices 7 = 0 := by
  refine ⟨by decide, by decide, by decide, by decide, by decide, by decide, by decide,
    by decide, by decide, by decide⟩

/-- C12 (amended): for every table, a negative index byte yields `0` in the corresponding
output byte of `ci_shuffle_epi8`, and an index byte greater than 15 yields the table byte
at the index modulo 16 (its low four bits). -/
theorem C12_negative_index_zero_large_index_wraps (table indices : V8) (i : Fin 16) :
    (indices i < 0 → ci_shuffle_epi8 table indices i = 0) ∧
    (15 < indices i →
      ci_shuffle_epi8 table indices i
        = table ⟨(indices i).toNat % 16, Nat.mod_lt _ (by decide)⟩) := by
  refine ⟨fun h => by simp [ci_shuffle_epi8, h], fun h => ?_⟩
  have h0 : ¬ indices i < 0 := by omega
  simp [ci_shuffle_epi8, h0]

theorem C12_witness :
    (exIndices 0 < 0 → ci_shuffle_epi8 exTable exIndices 0 = 0) ∧
    (15 < exIndices 0 →
      ci_shuffle_epi8 exTable exIndices 0
        = exTable ⟨(exIndices 0).toNat % 16, Nat.mod_lt _ (by decide)⟩) :=
  C12_negative_index_zero_large_index_wraps exTable exIndices 0

/-- C13 (defect): `ci_minpos_epu16` compares the lanes as signed values. For
`a = (0, -1, 0, 0, 0, 0, 0, 0)` lane 0 holds the smallest unsigned value (`0`, lane 1 being
`65535`), so the minimum is `0` at index `0`, which is what `_mm_minpos_epu16` yields;
`ci_minpos_epu16` writes `-1` to lane 0 and `1` to lane 1. -/
theorem C13_minpos_compares_signed :
    V16ok negLane1 ∧ IsUnsignedMinPos negLane1 0 ∧
    ci_minpos_epu16 negLane1 = ![-1, 1, 0, 0, 0, 0, 0, 0] ∧
    Sse._mm_minpos_epu16 negLane1 = ![0, 0, 0, 0, 0, 0, 0, 0] := by
  refine ⟨by decide, by decide, by decide, by decide⟩

/-- C14 (defect): the round trip through `ci_minpos_epu16` does not recover the maximum of
a vector of mixed signs. For `v = (5, -3, 0, 0, 0, 0, 0, 0)` the signed maximum is `5` in
lane 0, which is what the same construction over `_mm_minpos_epu16` leaves in lane 0; with
`ci_sub_epi16` and `ci_minpos_epu16` lane 0 of the result is `-3` and the reported index
is `1`. -/
theorem C14_roundtrip_misses_maximum :
    V16ok mixedSigns ∧ IsMaxPos mixedSigns 0 ∧ hmax mixedSigns = 5 ∧
    (MAXPOS_minpos_ci mixedSigns).2 0 = -3 ∧
    (MAXPOS_minpos_ci mixedSigns).1 1 = 1 ∧
    Sse.MAXPOS_sse41 mixedSigns 0 = 5 := by
  refine ⟨by decide, by decide, by decide, by decide, by decide, by decide⟩

/-- C15 (defect): for a shift count above 15, `ci_srai_epi16` yields `-1` for every nonzero
lane, positive lanes included. For `a = 1` and `n = 16` the lane is `-1` where the
arithmetic shift (and `_mm_srai_epi16`) gives `0`; negative and zero lanes, and counts up
to 15, come out as the arithmetic shift. -/
theorem C15_srai_large_count_ignores_sign :
    ci_srai_epi16 (ci_set1_epi16 1) 16 0 = -1 ∧
    Sse._mm_srai_epi16 (Sse._mm_set1_epi16 1) 16 0 = 0 ∧
    ci_srai_epi16 (ci_set1_epi16 32767) 16 0 = -1 ∧
    ci_srai_epi16 (ci_set1_epi16 (-5)) 16 0 = -1 ∧
    ci_srai_epi16 (ci_set1_epi16 0) 16 0 = 0 ∧
    ci_srai_epi16 (ci_set1_epi16 (-5)) 1 0 = -3 ∧
    ci_srai_epi16 (ci_set1_epi16 5) 15 0 = 0 := by
  refine ⟨by decide, by decide, by decide, by decide, by decide, by decide, by decide⟩

/-- C16 (defect): the lower-path branch metrics are not the negated upper-path ones when
`le` is odd. For `x = 3`, `z = -2`, `le = 7` the forward step adds
`g = (-5, 8, -9, 4, 4, -9, 8, -5)`, so `g[4] = 4` where `-g[0] = 5`: on the transition from
state 0 into state 4 the forward step applies `4` and the backward step, which has only
`bm = (g[0], -g[0], ..., g[3], -g[3])`, applies `5`. -/
theorem C16_lower_metrics_not_negated_upper :
    I8 3 ∧ I8 (-2) ∧ I16 7 ∧
    fw_m6 3 (-2) 7 = ![-5, 8, -9, 4, 4, -9, 8, -5] ∧
    fw_m6 3 (-2) 7 4 ≠ -fw_m6 3 (-2) 7 0 ∧
    (gen_fw_metrics 3 (-2) exAlpha 7).bm = ![-5, 5, 8, -8, -9, 9, 4, -4] ∧
    fwPred 0 4 ∧ bwSucc 0 4 ∧
    fwTransitionMetric 3 (-2) 7 0 4 = 4 ∧
    bwTransitionMetric (gen_fw_metrics 3 (-2) exAlpha 7).bm 0 4 = 5 := by
  refine ⟨by decide, by decide, by decide, by decide, by decide, by decide, by decide,
    by decide, by decide, by decide⟩

/-- C17: the forward gather tables, the backward unpack and the two LLR gather tables
encode one trellis. Lane `j` of the forward metrics is computed from lanes `2 (j mod 4)`
and `2 (j mod 4) + 1` of `alpha_prev`; lane `s` of the new `beta` from lanes `⌊s/2⌋` and
`⌊s/2⌋ + 4` of the old one; the LLR gathers pair `alpha[s]` with `beta[π0(s)]` and
`beta[π1(s)]`, and `{π0(s), π1(s)} = {⌊s/2⌋, ⌊s/2⌋ + 4}`. So `s` is a predecessor of `j`
in the forward step iff `j` is a successor of `s` in the backward step and in the LLR
step, and every state has exactly two predecessors and exactly two successors. -/
theorem C17_tables_encode_one_trellis (x z le : Int) (alpha_prev bm alpha beta : V16)
    (norm : Int) (ha : V16ok alpha_prev) (hb : V16ok beta) :
    (∀ j : Fin 8, fw_m0 x z le alpha_prev j
      = max (wrap16 (alpha_prev (pred0 j) + fw_m6 x z le j))
          (wrap16 (alpha_prev (pred1 j) + fw_m7 x z le j))) ∧
    (∀ s : Fin 8, (gen_bw_metrics bm z alpha beta norm).bw s
      = wrap16 (max (wrap16 (beta (succLo s) + bm s)) (wrap16 (beta (succHi s) - bm s))
          - norm)) ∧
    (∀ s : Fin 8,
      bw_m11 z alpha beta s = wrap16 (wrap16 (alpha s + bw_m13 z s) + beta (pi0 s)) ∧
      bw_m12 z alpha beta s = wrap16 (wrap16 (alpha s - bw_m13 z s) + beta (pi1 s))) ∧
    (∀ s : Fin 8, ({pi0 s, pi1 s} : Finset (Fin 8)) = {succLo s, succHi s}) ∧
    (∀ s j : Fin 8, fwPred s j ↔ bwSucc s j) ∧
    (∀ s j : Fin 8, fwPred s j ↔ llrSucc s j) ∧
    (∀ j : Fin 8, (Finset.univ.filter (fun s => fwPred s j)).card = 2) ∧
    (∀ s : Fin 8, (Finset.univ.filter (fun j => bwSucc s j)).card = 2) ∧
    (∀ s : Fin 8, (Finset.univ.filter (fun j => llrSucc s j)).card = 2) := by
  refine ⟨fun j => fw_m0_wrap_eq x z le alpha_prev ha j, fun s => ?_, fun s => ⟨?_, ?_⟩,
    by decide, by decide, by decide, by decide, by decide, by decide⟩
  · have elo : ci_unpacklo_epi16 beta beta s = beta (succLo s) := by
      fin_cases s <;> rfl
    have ehi : ci_unpackhi_epi16 beta beta s = beta (succHi s) := by
      fin_cases s <;> rfl
    simp only [gen_bw_metrics, ci_store_si128_eq, ci_load_si128_eq, ci_subs_epi16,
      ci_max_epi16_eq, ci_adds_epi16, ci_set1_epi16, elo, ehi]
  · have hs := shuffle_LV0 beta hb s
    simp only [bw_m11, bw_m13, ci_adds_epi16, ci_load_si128_eq, hs]
  · have hs := shuffle_LV1 beta hb s
    simp only [bw_m12, bw_m13, ci_adds_epi16, ci_subs_epi16, ci_load_si128_eq, hs]

theorem C17_witness :
    V16ok exAlpha ∧ V16ok exBeta ∧
    (∀ j : Fin 8, fw_m0 3 (-2) 7 exAlpha j
      = max (wrap16 (exAlpha (pred0 j) + fw_m6 3 (-2) 7 j))
          (wrap16 (exAlpha (pred1 j) + fw_m7 3 (-2) 7 j))) ∧
    (∀ s : Fin 8, (gen_bw_metrics exBm (-2) exAlpha exBeta 4).bw s
      = wrap16 (max (wrap16 (exBeta (succLo s) + exBm s))
          (wrap16 (exBeta (succHi s) - exBm s)) - 4)) ∧
    (∀ s : Fin 8,
      bw_m11 (-2) exAlpha exBeta s
        = wrap16 (wrap16 (exAlpha s + bw_m13 (-2) s) + exBeta (pi0 s)) ∧
      bw_m12 (-2) exAlpha exBeta s
        = wrap16 (wrap16 (exAlpha s - bw_m13 (-2) s) + exBeta (pi1 s))) ∧
    (∀ s : Fin 8, ({pi0 s, pi1 s} : Finset (Fin 8)) = {succLo s, succHi s}) ∧
    (∀ s j : Fin 8, fwPred s j ↔ bwSucc s j) ∧
    (∀ s j : Fin 8, fwPred s j ↔ llrSucc s j) ∧
    (∀ j : Fin 8, (Finset.univ.filter (fun s => fwPred s j)).card = 2) ∧
    (∀ s : Fin 8, (Finset.univ.filter (fun j => bwSucc s j)).card = 2) ∧
    (∀ s : Fin 8, (Finset.univ.filter (fun j => llrSucc s j)).card = 2) :=
  ⟨by decide, by decide,
    C17_tables_encode_one_trellis 3 (-2) 7 exAlpha exBm exAlpha exBeta 4
      (by decide) (by decide)⟩

/-- C18: the LLR gather tables split the transitions by information bit consistently with
the forward branch metrics. For every state `s`, the transition `s → π0(s)` gathered
through `LV_BW_SHUFFLE_MASK0` is a forward transition whose metric carries `x` with
coefficient `-1` and `z` with coefficient `p[s]`; the transition `s → π1(s)` gathered
through `LV_BW_SHUFFLE_MASK1` carries `x` with coefficient `+1` and `z` with coefficient
`-p[s]`; and `gen_bw_metrics` adds `+p[s] z` on the `π0` gather and `-p[s] z` on the `π1`
gather, `p = LTE_PARITY_BW_SHUFFLE`. -/
theorem C18_llr_tables_split_by_information_bit (x z le : Int) (alpha beta : V16)
    (hx : I8 x) (hz : I8 z) (hle : I16 le) (hb : V16ok beta) (s : Fin 8) :
    fwPred s (pi0 s) ∧ fwPred s (pi1 s) ∧
    fwTransitionMetric x z le s (pi0 s)
      = -x + LTE_PARITY_BW_SHUFFLE s * z + fwTransitionMetric 0 0 le s (pi0 s) ∧
    fwTransitionMetric x z le s (pi1 s)
      = x - LTE_PARITY_BW_SHUFFLE s * z + fwTransitionMetric 0 0 le s (pi1 s) ∧
    bw_m11 z alpha beta s
      = wrap16 (wrap16 (alpha s + LTE_PARITY_BW_SHUFFLE s * z) + beta (pi0 s)) ∧
    bw_m12 z alpha beta s
      = wrap16 (wrap16 (alpha s - LTE_PARITY_BW_SHUFFLE s * z) + beta (pi1 s)) := by
  have h00 : I8 0 := by decide
  have hs0 := shuffle_LV0 beta hb s
  have hs1 := shuffle_LV1 beta hb s
  have hp := bw_m13_eq z hz s
  rw [parity_bw_eq]
  refine ⟨?_, ?_, ?_, ?_, ?_, ?_⟩
  · rcases pi0_transition s with ⟨h, -, -⟩ | ⟨-, h, -, -⟩
    · exact Or.inl h
    · exact Or.inr h
  · rcases pi1_transition s with ⟨h, -, -⟩ | ⟨-, h, -, -⟩
    · exact Or.inl h
    · exact Or.inr h
  · rcases pi0_transition s with ⟨h, hs, hq⟩ | ⟨hn, h, hs, hq⟩
    · rw [fwTransitionMetric_pred0 x z le hx hz hle s _ h,
        fwTransitionMetric_pred0 0 0 le h00 h00 hle s _ h, hs, hq]
      ring
    · rw [fwTransitionMetric_pred1 x z le hx hz hle s _ hn h,
        fwTransitionMetric_pred1 0 0 le h00 h00 hle s _ hn h, hs, hq]
      ring
  · rcases pi1_transition s with ⟨h, hs, hq⟩ | ⟨hn, h, hs, hq⟩
    · rw [fwTransitionMetric_pred0 x z le hx hz hle s _ h,
        fwTransitionMetric_pred0 0 0 le h00 h00 hle s _ h, hs, hq]
      ring
    · rw [fwTransitionMetric_pred1 x z le hx hz hle s _ hn h,
        fwTransitionMetric_pred1 0 0 le h00 h00 hle s _ hn h, hs, hq]
      ring
  · simp only [bw_m11, ci_adds_epi16, ci_load_si128_eq, hs0, hp]
  · simp only [bw_m12, ci_adds_epi16, ci_subs_epi16, ci_load_si128_eq, hs1, hp]

theorem C18_witness :
    I8 3 ∧ I8 (-2) ∧ I16 7 ∧ V16ok exBeta ∧
    fwPred 5 (pi0 5) ∧ fwPred 5 (pi1 5) ∧
    fwTransitionMetric 3 (-2) 7 5 (pi0 5)
      = -3 + LTE_PARITY_BW_SHUFFLE 5 * (-2) + fwTransitionMetric 0 0 7 5 (pi0 5) ∧
    fwTransitionMetric 3 (-2) 7 5 (pi1 5)
      = 3 - LTE_PARITY_BW_SHUFFLE 5 * (-2) + fwTransitionMetric 0 0 7 5 (pi1 5) ∧
    bw_m11 (-2) exAlpha exBeta 5
      = wrap16 (wrap16 (exAlpha 5 + LTE_PARITY_BW_SHUFFLE 5 * (-2)) + exBeta (pi0 5)) ∧
    bw_m12 (-2) exAlpha exBeta 5
      = wrap16 (wrap16 (exAlpha 5 - LTE_PARITY_BW_SHUFFLE 5 * (-2)) + exBeta (pi1 5)) :=
  ⟨by decide, by decide, by decide, by decide,
    C18_llr_tables_split_by_information_bit 3 (-2) 7 exAlpha exBeta
      (by decide) (by decide) (by decide) (by decide) 5⟩

/-- C20: when no lane sum leaves the signed 16-bit range in either run, `gen_fw_metrics`
applied to `alpha_prev` with `C` added to every lane stores the same `alpha_next` and the
same `bm` as the run on the unshifted `alpha_prev`, and returns a value larger by exactly
`C`. -/
theorem C20_shift_absorbed_by_returned_value (x z le : Int) (alpha_prev : V16) (C : Int)
    (hx : I8 x) (hz : I8 z) (hle : I16 le)
    (ha : V16ok alpha_prev) (ha2 : V16ok (shift alpha_prev C))
    (hr : FwInRange x z le alpha_prev) (hr2 : FwInRange x z le (shift alpha_prev C)) :
    (gen_fw_metrics x z (shift alpha_prev C) le).sums_c
        = (gen_fw_metrics x z alpha_prev le).sums_c ∧
    (gen_fw_metrics x z (shift alpha_prev C) le).bm = (gen_fw_metrics x z alpha_prev le).bm ∧
    (gen_fw_metrics x z (shift alpha_prev C) le).ret
        = (gen_fw_metrics x z alpha_prev le).ret + C := by
  refine ⟨funext fun j => ?_, rfl, ?_⟩
  · rw [fw_sums_c_exact x z le _ hx hz hle ha2 hr2 j,
      fw_sums_c_exact x z le alpha_prev hx hz hle ha hr j, acsRaw_shift_add,
      acsRaw_shift_add]
    omega
  · rw [fw_ret_exact x z le _ hx hz hle ha2 hr2, fw_ret_exact x z le alpha_prev hx hz hle ha hr,
      acsRaw_shift_add]

theorem C20_witness :
    I8 3 ∧ I8 (-2) ∧ I16 7 ∧ V16ok exAlpha ∧ V16ok (shift exAlpha 100) ∧
    FwInRange 3 (-2) 7 exAlpha ∧ FwInRange 3 (-2) 7 (shift exAlpha 100) ∧
    (gen_fw_metrics 3 (-2) (shift exAlpha 100) 7).sums_c
        = (gen_fw_metrics 3 (-2) exAlpha 7).sums_c ∧
    (gen_fw_metrics 3 (-2) (shift exAlpha 100) 7).bm = (gen_fw_metrics 3 (-2) exAlpha 7).bm ∧
    (gen_fw_metrics 3 (-2) (shift exAlpha 100) 7).ret
        = (gen_fw_metrics 3 (-2) exAlpha 7).ret + 100 :=
  ⟨by decide, by decide, by decide, by decide, by decide, by decide, by decide,
    C20_shift_absorbed_by_returned_value 3 (-2) 7 exAlpha 100
      (by decide) (by decide) (by decide) (by decide) (by decide) (by decide) (by decide)⟩

end TurboFec
